import Mathlib

/-!
Shallow embedding of the Fiat-Shamir transcript (src/src/transcript.rs) and
the proof container (src/jolt-sdk/src/host_utils.rs) of this repository,
with proofs of the specified properties.

The transcript wraps the external merlin sponge; per the spec the sponge is a
deterministic absorb/squeeze primitive and the transcript state is
"conceptually an append-only log of (label, bytes) pairs".  We model the
state as that log (absorb and squeeze events) and the squeeze output as a
concrete deterministic pure function of the state, standing in for the
external STROBE primitive.
-/

namespace Jolt

/-- Byte strings are lists of naturals (each intended `< 256`). -/
abbrev Bytes := List Nat

/-- Bytes of a UTF-8 string literal, as Rust's byte-string literals. -/
def strBytes (s : String) : Bytes :=
  s.toUTF8.toList.map (fun c => c.toNat)

/-- Order of the BN254 scalar field `Fr` (`ark_bn254::Fr`), a 254-bit prime. -/
def frOrder : Nat :=
  21888242871839275222246405745257275088548364400416034343698204186575808495617

theorem frOrder_pos : 0 < frOrder := by decide

/-- `Scalar`: an element of the BN254 scalar field (src re-exports
`ark_bn254::Fr`); represented by its canonical residue. -/
def Scalar := Fin frOrder

instance : DecidableEq Scalar := instDecidableEqFin frOrder

/-- Little-endian byte list to natural number (first byte least significant). -/
def leBytesToNat : Bytes → Nat
  | [] => 0
  | b :: bs => b + 256 * leBytesToNat bs

/-- Natural number to a fixed-width little-endian byte list. -/
def natToLeBytes : Nat → Nat → Bytes
  | 0, _ => []
  | w + 1, n => n % 256 :: natToLeBytes w (n / 256)

theorem natToLeBytes_length (w n : Nat) : (natToLeBytes w n).length = w := by
  induction w generalizing n with
  | zero => rfl
  | succ w ih => simp [natToLeBytes, ih]

theorem leBytesToNat_natToLeBytes (w n : Nat) (h : n < 256 ^ w) :
    leBytesToNat (natToLeBytes w n) = n := by
  induction w generalizing n with
  | zero =>
    simp [natToLeBytes, leBytesToNat]
    omega
  | succ w ih =>
    have hdiv : n / 256 < 256 ^ w := by
      rw [Nat.div_lt_iff_lt_mul (by norm_num)]
      calc n < 256 ^ (w + 1) := h
        _ = 256 ^ w * 256 := by ring
    simp [natToLeBytes, leBytesToNat, ih _ hdiv]
    omega

/-- `ark_ff` canonical serialization of a BN254 scalar: 32 little-endian
bytes of the canonical residue. -/
def serializeScalar (s : Scalar) : Bytes :=
  natToLeBytes 32 s.val

theorem serializeScalar_length (s : Scalar) : (serializeScalar s).length = 32 :=
  natToLeBytes_length 32 s.val

/-- `GroupElement`: a BN254 G1 curve point in the canonical compressed form
the spec prescribes — one base-field coordinate plus a sign/parity bit.
Modelled from the spec: the curve arithmetic sits in the external library;
only the fixed-width canonical encoding is relevant to the core. -/
structure GroupElement where
  x : Fin 21888242871839275222246405745257275088696311157297823662689037894645226208583
  neg : Bool
deriving DecidableEq

/-- Canonical compressed serialization of a point: 32 little-endian bytes of
the coordinate with the parity bit packed into the top unused bit. -/
def serializePoint (p : GroupElement) : Bytes :=
  natToLeBytes 32 (p.x.val + (if p.neg then 2 ^ 255 else 0))

theorem serializePoint_length (p : GroupElement) : (serializePoint p).length = 32 :=
  natToLeBytes_length 32 _

/-- One event of the transcript's append-only log: an absorption of labeled
bytes, or a labeled squeeze of `n` challenge bytes (merlin's PRF operation,
which also advances the state). -/
inductive Entry
  | absorb (label : Bytes) (msg : Bytes)
  | squeeze (label : Bytes) (n : Nat)
deriving DecidableEq

/-- `merlin::Transcript`: the Fiat-Shamir state.  Modelled from the spec:
"conceptually an append-only log of (label, bytes) pairs"; the log is kept
most-recent-first. -/
structure Transcript where
  log : List Entry
deriving DecidableEq

/-- A freshly constructed transcript, before any absorption. -/
def Transcript.new : Transcript := ⟨[]⟩

/-- A cheap deterministic mixing step, standing in for the external
cryptographic sponge's compression.  Only determinism and output length are
relied on by the development. -/
def mixStep (a b : Nat) : Nat :=
  (a * 1000003 + b + 1) % (2 ^ 64)

/-- Fold a byte list into an accumulator. -/
def mixBytes (acc : Nat) (bs : Bytes) : Nat :=
  bs.foldl mixStep acc

/-- Fold one log entry into an accumulator. -/
def mixEntry (acc : Nat) : Entry → Nat
  | .absorb label msg => mixBytes (mixBytes (mixStep acc 0) label) msg
  | .squeeze label n => mixStep (mixBytes (mixStep acc 1) label) n

/-- Digest of the whole transcript state. -/
def transcriptDigest (t : Transcript) : Nat :=
  t.log.foldl mixEntry 5381

/-- Deterministic squeeze: `n` pseudorandom bytes derived from the current
state and the label.  Modelled from the spec: the external sponge primitive
providing `squeeze(n_bytes)`. -/
def squeezeBytes (t : Transcript) (label : Bytes) (n : Nat) : Bytes :=
  (List.range n).map (fun i => mixStep (mixStep (transcriptDigest t) (mixBytes 0 label)) i % 256)

theorem squeezeBytes_length (t : Transcript) (label : Bytes) (n : Nat) :
    (squeezeBytes t label n).length = n := by
  simp [squeezeBytes]

/-- merlin `append_message`: absorb `(label, msg)` into the state. -/
def appendMessage (label msg : Bytes) (t : Transcript) : Transcript :=
  ⟨.absorb label msg :: t.log⟩

/-- merlin `challenge_bytes`: squeeze `n` bytes keyed by `label`; the squeeze
itself advances the state. -/
def challengeBytes (label : Bytes) (n : Nat) (t : Transcript) : Bytes × Transcript :=
  (squeezeBytes t label n, ⟨.squeeze label n :: t.log⟩)

/-- `ark_ff` `from_le_bytes_mod_order`: interpret the bytes as a
little-endian integer and reduce modulo the field order. -/
def scalarFromLeBytesModOrder (bs : Bytes) : Scalar :=
  ⟨leBytesToNat bs % frOrder, Nat.mod_lt _ frOrder_pos⟩

/-! `impl ProofTranscript for Transcript` (src/src/transcript.rs). -/

/-- `append_protocol_name`: absorb the protocol name under the fixed label
`b"protocol-name"`. -/
def appendProtocolName (protocolName : Bytes) (t : Transcript) : Transcript :=
  appendMessage (strBytes "protocol-name") protocolName t

/-- `append_scalar`: canonically serialize the scalar into a buffer and
absorb the buffer under `label`. -/
def appendScalar (label : Bytes) (scalar : Scalar) (t : Transcript) : Transcript :=
  appendMessage label (serializeScalar scalar) t

/-- `append_point`: canonically serialize the point and absorb under
`label`. -/
def appendPoint (label : Bytes) (point : GroupElement) (t : Transcript) : Transcript :=
  appendMessage label (serializePoint point) t

/-- `challenge_scalar`: squeeze a 64-byte buffer keyed by `label` and map it
into the scalar field via `from_le_bytes_mod_order`. -/
def challengeScalar (label : Bytes) (t : Transcript) : Scalar × Transcript :=
  let r := challengeBytes label 64 t
  (scalarFromLeBytesModOrder r.1, r.2)

/-- Sequential state-threaded map over an index list, as Rust's
`(0..len).map(...).collect()` over a closure mutating the transcript. -/
def mapStateChallenges (f : Nat → Transcript → Scalar × Transcript) :
    List Nat → Transcript → List Scalar × Transcript
  | [], t => ([], t)
  | i :: is, t =>
    let r := f i t
    let rest := mapStateChallenges f is r.2
    (r.1 :: rest.1, rest.2)

/-- `challenge_vector`: `(0..len).map(|_i| self.challenge_scalar(label))`. -/
def challengeVector (label : Bytes) (len : Nat) (t : Transcript) :
    List Scalar × Transcript :=
  mapStateChallenges (fun _i t' => challengeScalar label t') (List.range len) t

/-! `trait AppendToTranscript` and its three impls. -/

/-- `impl AppendToTranscript for Scalar`: delegates to `append_scalar`. -/
def Scalar.appendToTranscript (s : Scalar) (label : Bytes) (t : Transcript) : Transcript :=
  appendScalar label s t

/-- `impl AppendToTranscript for [Scalar]`: absorb the begin delimiter,
each element via `append_scalar`, then the end delimiter. -/
def sliceAppendToTranscript (v : List Scalar) (label : Bytes) (t : Transcript) : Transcript :=
  let t1 := appendMessage label (strBytes "begin_append_vector") t
  let t2 := v.foldl (fun acc item => appendScalar label item acc) t1
  appendMessage label (strBytes "end_append_vector") t2

/-- `impl AppendToTranscript for GroupElement`: delegates to `append_point`. -/
def GroupElement.appendToTranscript (p : GroupElement) (label : Bytes) (t : Transcript) : Transcript :=
  appendPoint label p t

/-! The Rust `append_scalar`/`append_point` serialize through the fallible
`CanonicalSerialize::serialize` API and `.unwrap()` the result: we model the
control flow exactly, distinguishing a clean absorption from the process
abort that the `.unwrap()` would cause on an encoding error. -/

/-- Outcome of an absorb operation: success, or the process abort a failed
`.unwrap()` causes. -/
inductive AbsorbResult
  | ok (t : Transcript)
  | panicked
deriving DecidableEq

/-- `ark` `CanonicalSerialize::serialize` of a scalar into a growable
in-memory buffer: the `Result`-typed API, which for a memory buffer always
succeeds with the full fixed-width encoding. -/
def serializeScalarResult (s : Scalar) : Except Unit Bytes :=
  Except.ok (serializeScalar s)

/-- `ark` `CanonicalSerialize::serialize` of a point into a growable
in-memory buffer: always succeeds with the full compressed encoding. -/
def serializePointResult (p : GroupElement) : Except Unit Bytes :=
  Except.ok (serializePoint p)

/-- `append_scalar` with the source's `.unwrap()` modelled: an encoding
error aborts, a success absorbs the serialized buffer. -/
def appendScalarChecked (label : Bytes) (s : Scalar) (t : Transcript) : AbsorbResult :=
  match serializeScalarResult s with
  | .ok buf => .ok (appendMessage label buf t)
  | .error _ => .panicked

/-- `append_point` with the source's `.unwrap()` modelled. -/
def appendPointChecked (label : Bytes) (p : GroupElement) (t : Transcript) : AbsorbResult :=
  match serializePointResult p with
  | .ok buf => .ok (appendMessage label buf t)
  | .error _ => .panicked

/-! A whole protocol interaction with the transcript, for the determinism
property: the sequence of `append_*` calls and `challenge_*` requests a
prover or verifier issues. -/

/-- One call of the `ProofTranscript`/`AppendToTranscript` interface. -/
inductive Call
  | protocolName (name : Bytes)
  | scalar (label : Bytes) (s : Scalar)
  | point (label : Bytes) (p : GroupElement)
  | vector (label : Bytes) (v : List Scalar)
  | chalScalar (label : Bytes)
  | chalVector (label : Bytes) (n : Nat)

/-- Execute one call: the new transcript state and the challenge scalars the
call output (empty for the append calls). -/
def execCall (c : Call) (t : Transcript) : Transcript × List Scalar :=
  match c with
  | .protocolName name => (appendProtocolName name t, [])
  | .scalar label s => (appendScalar label s t, [])
  | .point label p => (appendPoint label p t, [])
  | .vector label v => (sliceAppendToTranscript v label t, [])
  | .chalScalar label =>
    let r := challengeScalar label t
    (r.2, [r.1])
  | .chalVector label n =>
    let r := challengeVector label n t
    (r.2, r.1)

/-- Execute a call sequence, collecting all challenge outputs in order. -/
def runCalls : List Call → Transcript → Transcript × List Scalar
  | [], t => (t, [])
  | c :: cs, t =>
    let r := execCall c t
    let rest := runCalls cs r.1
    (rest.1, r.2 ++ rest.2)

/-- Big-step execution relation of a transcript session: `Runs t cs t' out`
holds when running the calls `cs` on a transcript in state `t` can end in
state `t'` having output the challenge scalars `out`. -/
inductive Runs : Transcript → List Call → Transcript → List Scalar → Prop
  | nil (t : Transcript) : Runs t [] t []
  | cons {t t' t'' : Transcript} {c : Call} {cs : List Call}
      {out rest : List Scalar}
      (hc : execCall c t = (t', out))
      (hrest : Runs t' cs t'' rest) :
      Runs t (c :: cs) t'' (out ++ rest)

/-- The functional execution realizes the relation. -/
theorem runs_runCalls (cs : List Call) (t : Transcript) :
    Runs t cs (runCalls cs t).1 (runCalls cs t).2 := by
  induction cs generalizing t with
  | nil => exact .nil t
  | cons c cs ih =>
    show Runs t (c :: cs) (runCalls cs (execCall c t).1).1
      ((execCall c t).2 ++ (runCalls cs (execCall c t).1).2)
    exact Runs.cons rfl (ih (execCall c t).1)

/-- The execution relation is a function of the start state and the calls. -/
theorem runs_deterministic {t : Transcript} {cs : List Call}
    {t1 t2 : Transcript} {o1 o2 : List Scalar}
    (h1 : Runs t cs t1 o1) (h2 : Runs t cs t2 o2) : t1 = t2 ∧ o1 = o2 := by
  induction h1 generalizing t2 o2 with
  | nil =>
    cases h2
    exact ⟨rfl, rfl⟩
  | cons hc _ ih =>
    cases h2 with
    | cons hc2 hrest2 =>
      rw [hc] at hc2
      obtain ⟨h1', h2'⟩ := Prod.mk.injEq .. ▸ hc2
      obtain ⟨ht, ho⟩ := ih (h1' ▸ hrest2)
      exact ⟨ht, by rw [h2', ho]⟩

/-! The proof container (src/jolt-sdk/src/host_utils.rs): a
`#[derive(CanonicalSerialize, CanonicalDeserialize)]` struct of a proof
payload and a commitment collection, serialized in ark's canonical
compressed form (each field in declaration order; collections with a
little-endian `u64` length prefix followed by the elements; scalars and
compressed points as fixed 32-byte encodings validated on read). -/

/-- Read exactly `w` bytes from the front of a stream, failing if the
stream is shorter (a truncated stream). -/
def readBytes (w : Nat) (bs : Bytes) : Option (Bytes × Bytes) :=
  if w ≤ bs.length then some (bs.take w, bs.drop w) else none

/-- Deserialize one scalar: read 32 bytes and validate that the
little-endian value is a canonical residue (below the field order). -/
def deserializeScalar (bs : Bytes) : Option (Scalar × Bytes) :=
  match readBytes 32 bs with
  | none => none
  | some (chunk, rest) =>
    let v := leBytesToNat chunk
    if h : v < frOrder then some (⟨v, h⟩, rest) else none

/-- Deserialize one compressed point: read 32 bytes, split off the parity
bit and validate that the coordinate is a canonical base-field residue. -/
def deserializePoint (bs : Bytes) : Option (GroupElement × Bytes) :=
  match readBytes 32 bs with
  | none => none
  | some (chunk, rest) =>
    let v := leBytesToNat chunk
    let x := v % 2 ^ 255
    let neg := decide (2 ^ 255 ≤ v)
    if h : x < 21888242871839275222246405745257275088696311157297823662689037894645226208583 then
      some (⟨⟨x, h⟩, neg⟩, rest)
    else none

/-- Serialize a collection: `u64` little-endian length prefix, then each
element's canonical encoding in order. -/
def serializeList {α : Type} (sElem : α → Bytes) (xs : List α) : Bytes :=
  natToLeBytes 8 xs.length ++ (xs.map sElem).flatten

/-- Deserialize exactly `n` elements from a stream. -/
def deserializeN {α : Type} (dElem : Bytes → Option (α × Bytes)) :
    Nat → Bytes → Option (List α × Bytes)
  | 0, bs => some ([], bs)
  | n + 1, bs =>
    match dElem bs with
    | none => none
    | some (a, rest) =>
      match deserializeN dElem n rest with
      | none => none
      | some (as, rest') => some (a :: as, rest')

/-- Deserialize a collection: read the length prefix, then that many
elements. -/
def deserializeList {α : Type} (dElem : Bytes → Option (α × Bytes)) (bs : Bytes) :
    Option (List α × Bytes) :=
  match readBytes 8 bs with
  | none => none
  | some (lenB, rest) => deserializeN dElem (leBytesToNat lenB) rest

/-- `RV32IJoltProof`, the proof payload.  Modelled from the spec:
`ProofData` is an "opaque, protocol-specific payload … treated by the core
purely as a serializable blob" (its type lives outside src/); modelled as a
collection of field elements under the canonical collection encoding. -/
def ProofData := List Scalar

instance : DecidableEq ProofData := inferInstanceAs (DecidableEq (List Scalar))

/-- `JoltCommitments`.  Modelled from the spec: an "opaque collection of
GroupElement-based commitments" (its type lives outside src/); modelled as a
collection of compressed points under the canonical collection encoding. -/
def Commitments := List GroupElement

instance : DecidableEq Commitments := inferInstanceAs (DecidableEq (List GroupElement))

/-- `struct Proof { proof, commitments }`: the proof container. -/
structure Proof where
  proof : ProofData
  commitments : Commitments
deriving DecidableEq

/-- `serialize_compressed` of the container: the derived canonical
serialization writes each field in declaration order. -/
def Proof.serializeCompressed (p : Proof) : Bytes :=
  serializeList serializeScalar p.proof ++ serializeList serializePoint p.commitments

/-- `deserialize_compressed` of the container: read each field in order
(trailing bytes beyond the encoding are not consumed). -/
def Proof.deserializeCompressed (bs : Bytes) : Option Proof :=
  match deserializeList deserializeScalar bs with
  | none => none
  | some (pd, rest) =>
    match deserializeList deserializePoint rest with
    | none => none
    | some (cm, _) => some ⟨pd, cm⟩

/-- `size`: serialize into an in-memory buffer and return its length. -/
def Proof.size (p : Proof) : Nat :=
  p.serializeCompressed.length

/-- Errors of the container's file operations: `eyre::Result` failure from
the filesystem or from deserialization. -/
inductive FileError
  | fileIOError
  | decodingError
deriving DecidableEq

/-- A filesystem as a map from paths to file contents. -/
def FileSystem := List Nat → Option Bytes

/-- `save_to_file`: create (or overwrite) the file at `path` with the
canonical compressed serialization. -/
def Proof.saveToFile (p : Proof) (path : List Nat) (fs : FileSystem) : FileSystem :=
  fun q => if q = path then some p.serializeCompressed else fs q

/-- `from_file`: open the file at `path` (an I/O error when absent) and
deserialize a container from its contents (a decoding error when the bytes
are not a valid canonical encoding). -/
def Proof.fromFile (path : List Nat) (fs : FileSystem) : Except FileError Proof :=
  match fs path with
  | none => .error .fileIOError
  | some bs =>
    match Proof.deserializeCompressed bs with
    | none => .error .decodingError
    | some p => .ok p

/-! Round-trip lemmas for the canonical encoding layers. -/

theorem frOrder_lt : frOrder < 256 ^ 32 := by decide

theorem basePrime_lt :
    21888242871839275222246405745257275088696311157297823662689037894645226208583 < 2 ^ 254 := by
  decide

theorem readBytes_append {w : Nat} {xs rest : Bytes} (h : xs.length = w) :
    readBytes w (xs ++ rest) = some (xs, rest) := by
  subst h
  simp [readBytes, List.take_left, List.drop_left]

theorem deserializeScalar_append (s : Scalar) (rest : Bytes) :
    deserializeScalar (serializeScalar s ++ rest) = some (s, rest) := by
  have hlt : s.val < 256 ^ 32 := lt_trans s.isLt frOrder_lt
  rw [deserializeScalar, readBytes_append (serializeScalar_length s)]
  simp only [serializeScalar, leBytesToNat_natToLeBytes 32 s.val hlt]
  rw [dif_pos s.isLt]
  simp

theorem deserializePoint_append (p : GroupElement) (rest : Bytes) :
    deserializePoint (serializePoint p ++ rest) = some (p, rest) := by
  rcases p with ⟨⟨x, hxp⟩, neg⟩
  have hx : x < 2 ^ 254 := lt_trans hxp basePrime_lt
  have hv : x + (if neg then 2 ^ 255 else 0) < 256 ^ 32 := by
    rcases neg with _ | _ <;> simp <;> omega
  rw [deserializePoint, readBytes_append (serializePoint_length _)]
  simp only [serializePoint, leBytesToNat_natToLeBytes 32 _ hv]
  have hmod : (x + (if neg then 2 ^ 255 else 0)) % 2 ^ 255 = x := by
    rcases neg with _ | _ <;> simp <;> omega
  have hneg : decide (2 ^ 255 ≤ x + (if neg then 2 ^ 255 else 0)) = neg := by
    rcases neg with _ | _ <;> simp <;> omega
  simp only [hmod, hneg]
  rw [dif_pos hxp]

theorem deserializeN_append {α : Type} (sElem : α → Bytes)
    (dElem : Bytes → Option (α × Bytes))
    (hrt : ∀ a rest, dElem (sElem a ++ rest) = some (a, rest))
    (xs : List α) (rest : Bytes) :
    deserializeN dElem xs.length ((xs.map sElem).flatten ++ rest) = some (xs, rest) := by
  induction xs with
  | nil => simp [deserializeN]
  | cons a as ih =>
    simp only [List.map_cons, List.flatten_cons, List.length_cons, List.append_assoc]
    rw [deserializeN, hrt a _]
    simp only [ih]

theorem deserializeList_append {α : Type} (sElem : α → Bytes)
    (dElem : Bytes → Option (α × Bytes))
    (hrt : ∀ a rest, dElem (sElem a ++ rest) = some (a, rest))
    (xs : List α) (rest : Bytes) (hlen : xs.length < 2 ^ 64) :
    deserializeList dElem (serializeList sElem xs ++ rest) = some (xs, rest) := by
  have h8 : xs.length < 256 ^ 8 := by
    have : (2 : Nat) ^ 64 = 256 ^ 8 := by norm_num
    omega
  rw [serializeList, List.append_assoc, deserializeList,
    readBytes_append (natToLeBytes_length 8 xs.length)]
  simp only [leBytesToNat_natToLeBytes 8 xs.length h8]
  exact deserializeN_append sElem dElem hrt xs rest

theorem deserialize_serialize (p : Proof)
    (hp : p.proof.length < 2 ^ 64) (hc : p.commitments.length < 2 ^ 64) :
    Proof.deserializeCompressed p.serializeCompressed = some p := by
  rw [Proof.serializeCompressed, Proof.deserializeCompressed]
  have h1 := deserializeList_append serializeScalar deserializeScalar
    deserializeScalar_append p.proof (serializeList serializePoint p.commitments) hp
  have h2 := deserializeList_append serializePoint deserializePoint
    deserializePoint_append p.commitments [] hc
  rw [List.append_nil] at h2
  simp only [h1, h2]

/-- The scalar `1`. -/
def sOne : Scalar := ⟨1, by norm_num [frOrder]⟩

/-- A sample compressed point. -/
def gEx : GroupElement := ⟨⟨5, by norm_num⟩, false⟩

/-- A sample proof container. -/
def pEx : Proof := ⟨[sOne], [gEx]⟩

/-- A sample protocol interaction: protocol name, one absorbed scalar, one
challenge request. -/
def csEx : List Call :=
  [.protocolName (strBytes "test-protocol"),
   .scalar (strBytes "x") sOne,
   .chalScalar (strBytes "c")]

/-- The spec's reference behavior for `challenge_vector`: `n` sequential
calls to `challenge_scalar` under the same label, threading the advanced
state from call to call. -/
def seqChallengeScalars (label : Bytes) : Nat → Transcript → List Scalar × Transcript
  | 0, t => ([], t)
  | n + 1, t =>
    let r := challengeScalar label t
    let rest := seqChallengeScalars label n r.2
    (r.1 :: rest.1, rest.2)

theorem mapStateChallenges_const (label : Bytes) (l : List Nat) (t : Transcript) :
    mapStateChallenges (fun _i t' => challengeScalar label t') l t =
      seqChallengeScalars label l.length t := by
  induction l generalizing t with
  | nil => rfl
  | cons i is ih => simp [mapStateChallenges, seqChallengeScalars, ih]

theorem seqChallengeScalars_fst_length (label : Bytes) (n : Nat) (t : Transcript) :
    (seqChallengeScalars label n t).1.length = n := by
  induction n generalizing t with
  | zero => rfl
  | succ n ih => simp [seqChallengeScalars, ih]

/-- A truncated byte stream: the canonical encoding of `pEx` with its last
byte missing. -/
def truncatedBytes : Bytes := pEx.serializeCompressed.dropLast

/-- A byte stream whose first scalar encoding is the field order itself:
an out-of-range (non-canonical) field element. -/
def nonCanonicalBytes : Bytes := natToLeBytes 8 1 ++ natToLeBytes 32 frOrder

/-! The claims. -/

/-- C1: two independently constructed Transcript instances fed the same
fixed sequence of append calls and challenge requests (same labels, values,
vector lengths, order) produce identical challenge outputs: the execution
relation from the fresh state is deterministic, consuming no random
source. -/
theorem transcript_challenge_determinism (cs : List Call)
    (t1 t2 : Transcript) (o1 o2 : List Scalar)
    (h1 : Runs Transcript.new cs t1 o1) (h2 : Runs Transcript.new cs t2 o2) :
    o1 = o2 :=
  (runs_deterministic h1 h2).2

/-- Witness for C1 at the sample interaction `csEx`. -/
theorem transcript_challenge_determinism_witness :
    (runCalls csEx Transcript.new).2 = (runCalls csEx Transcript.new).2 :=
  transcript_challenge_determinism csEx
    (runCalls csEx Transcript.new).1 (runCalls csEx Transcript.new).1
    (runCalls csEx Transcript.new).2 (runCalls csEx Transcript.new).2
    (runs_runCalls csEx Transcript.new) (runs_runCalls csEx Transcript.new)

/-- C2: serialization round-trip — deserializing the canonical compressed
bytes of any valid container yields an equal container, and `from_file`
after `save_to_file` returns an equal container. -/
theorem proof_serialization_roundtrip (p : Proof) (path : List Nat) (fs : FileSystem)
    (hp : p.proof.length < 2 ^ 64) (hc : p.commitments.length < 2 ^ 64) :
    Proof.deserializeCompressed p.serializeCompressed = some p ∧
    Proof.fromFile path (p.saveToFile path fs) = .ok p := by
  have hrt := deserialize_serialize p hp hc
  refine ⟨hrt, ?_⟩
  simp [Proof.fromFile, Proof.saveToFile, hrt]

/-- Witness for C2 at the sample container `pEx`. -/
theorem proof_serialization_roundtrip_witness :
    Proof.deserializeCompressed pEx.serializeCompressed = some pEx ∧
    Proof.fromFile [0] (pEx.saveToFile [0] (fun _ => none)) = .ok pEx :=
  proof_serialization_roundtrip pEx [0] (fun _ => none) (by decide) (by decide)

/-- C3: the absorb operations always succeed — the `.unwrap()`ed in-memory
serialization is total, so the modelled abort branch is never taken — and
the absorbed bytes are the complete fixed-width canonical encoding, never
truncated. -/
theorem absorb_no_abort_no_truncation (label : Bytes) (s : Scalar)
    (p : GroupElement) (t : Transcript) :
    appendScalarChecked label s t = .ok (appendScalar label s t) ∧
    appendPointChecked label p t = .ok (appendPoint label p t) ∧
    (appendScalar label s t).log = .absorb label (serializeScalar s) :: t.log ∧
    (appendPoint label p t).log = .absorb label (serializePoint p) :: t.log ∧
    (serializeScalar s).length = 32 ∧ (serializePoint p).length = 32 :=
  ⟨rfl, rfl, rfl, rfl, serializeScalar_length s, serializePoint_length p⟩

/-- C4: appending a vector absorbs the begin delimiter, then each element
under the same label via the scalar absorption, then the end delimiter; in
particular the state after `append_vector(label, [a, b])` differs from the
state after the two undelimited `append_scalar` calls. -/
theorem append_vector_framing (label : Bytes) (a b : Scalar) (t : Transcript) :
    (sliceAppendToTranscript [a, b] label t).log =
      .absorb label (strBytes "end_append_vector") ::
      .absorb label (serializeScalar b) ::
      .absorb label (serializeScalar a) ::
      .absorb label (strBytes "begin_append_vector") :: t.log ∧
    sliceAppendToTranscript [a, b] label t ≠
      appendScalar label b (appendScalar label a t) := by
  refine ⟨rfl, fun h => ?_⟩
  have hlen := congrArg (fun tr => tr.log.length) h
  simp [sliceAppendToTranscript, appendScalar, appendMessage] at hlen
  omega

/-- C5: `challenge_scalar` squeezes a 64-byte buffer — at least double the
254-bit field's width — keyed by the label, reduces its little-endian value
modulo the field order, and advances the transcript state. -/
theorem challenge_scalar_wide_reduction (label : Bytes) (t : Transcript) :
    (challengeScalar label t).1 = scalarFromLeBytesModOrder (squeezeBytes t label 64) ∧
    (squeezeBytes t label 64).length = 64 ∧
    8 * (squeezeBytes t label 64).length ≥ 2 * 254 ∧
    (challengeScalar label t).1.val = leBytesToNat (squeezeBytes t label 64) % frOrder ∧
    (challengeScalar label t).2 ≠ t := by
  refine ⟨rfl, squeezeBytes_length t label 64, ?_, rfl, fun h => ?_⟩
  · rw [squeezeBytes_length]; omega
  · have hlen := congrArg (fun tr => tr.log.length) h
    simp [challengeScalar, challengeBytes] at hlen

/-- C6: `challenge_vector(label, n)` returns exactly `n` scalars and equals
`n` sequential `challenge_scalar(label)` calls from the same starting
state, element `i` coming from squeeze `i`. -/
theorem challenge_vector_refines_sequential (label : Bytes) (n : Nat) (t : Transcript) :
    challengeVector label n t = seqChallengeScalars label n t ∧
    (challengeVector label n t).1.length = n := by
  have h : challengeVector label n t = seqChallengeScalars label n t := by
    rw [challengeVector, mapStateChallenges_const, List.length_range]
  exact ⟨h, by rw [h, seqChallengeScalars_fst_length]⟩

/-- C7: `size` equals the byte length `save_to_file` writes for the same
container, and is a pure measurement of the in-memory canonical compressed
encoding. -/
theorem size_matches_saved_bytes (p : Proof) (path : List Nat) (fs : FileSystem) :
    p.saveToFile path fs path = some p.serializeCompressed ∧
    p.size = p.serializeCompressed.length :=
  ⟨by simp [Proof.saveToFile], rfl⟩

/-- C8: `from_file` returns an I/O error when the file is missing, a
decoding error when the bytes are not a valid canonical encoding, returns a
container only when the bytes decode to exactly it (never a default), and
rejects a truncated stream and an out-of-range field element. -/
theorem from_file_error_paths (path : List Nat) (fs : FileSystem) :
    (fs path = none → Proof.fromFile path fs = .error .fileIOError) ∧
    (∀ bs, fs path = some bs → Proof.deserializeCompressed bs = none →
      Proof.fromFile path fs = .error .decodingError) ∧
    (∀ p, Proof.fromFile path fs = .ok p →
      ∃ bs, fs path = some bs ∧ Proof.deserializeCompressed bs = some p) ∧
    Proof.deserializeCompressed truncatedBytes = none ∧
    Proof.deserializeCompressed nonCanonicalBytes = none := by
  refine ⟨fun h => by simp [Proof.fromFile, h], fun bs h1 h2 => by simp [Proof.fromFile, h1, h2],
    fun p hp => ?_, by decide, by decide⟩
  rw [Proof.fromFile] at hp
  rcases hfs : fs path with _ | bs <;> rw [hfs] at hp
  · simp at hp
  · rcases hdes : Proof.deserializeCompressed bs with _ | q <;> simp [hdes] at hp
    exact ⟨bs, rfl, hp ▸ hdes⟩

/-- Witness for C8 on the empty filesystem. -/
theorem from_file_error_paths_witness :
    Proof.fromFile [0] (fun _ => none) = .error .fileIOError :=
  (from_file_error_paths [0] (fun _ => none)).1 rfl

/-- C9: the capability-dispatch path and the direct path coincide — a
scalar's `append_to_transcript` is exactly `append_scalar`, and a point's
is exactly `append_point`. -/
theorem append_dispatch_agrees (label : Bytes) (s : Scalar) (p : GroupElement)
    (t : Transcript) :
    s.appendToTranscript label t = appendScalar label s t ∧
    p.appendToTranscript label t = appendPoint label p t :=
  ⟨rfl, rfl⟩

/-- C10: `challenge_vector(label, 0)` returns the empty sequence and leaves
the transcript state unchanged, so subsequent derivations are as if the
call had not happened. -/
theorem challenge_vector_zero_frame (label label2 : Bytes) (t : Transcript) :
    challengeVector label 0 t = ([], t) ∧
    challengeScalar label2 (challengeVector label 0 t).2 = challengeScalar label2 t :=
  ⟨rfl, rfl⟩

end Jolt
